import Mathlib

/-!
Shallow embedding of the streaming/chunked processor
(`src/processing/chunked_processor.py`, `src/processing/column_processor.py`,
`src/ingestion/remote_storage.py`).

Conventions of the embedding:
* a pandas DataFrame batch is a Lean list (of cell values, or of
  `key × value` pairs for grouped aggregation);
* floats are modelled as `ℚ`; the sentinel values `float('inf')` and
  `float('-inf')` used by `compute_statistics_chunked` are modelled by
  `⊤ : WithTop ℚ` and `⊥ : WithBot ℚ`;
* fallible operations (pandas raising) return `Except String _`;
* `Series.sample(n)` draws `n` random elements without replacement; the
  embedding takes the first `n` elements, which has the same length and is
  empty exactly when the pandas sample is, the only facts used here.
-/

/-- Decidable equality for `Except`, used to evaluate the embedded fallible
operations on concrete inputs. -/
instance {ε β : Type} [DecidableEq ε] [DecidableEq β] :
    DecidableEq (Except ε β)
  | .ok a, .ok b =>
    if h : a = b then .isTrue (by rw [h])
    else .isFalse (by intro hc; cases hc; exact h rfl)
  | .ok _, .error _ => .isFalse (by intro h; cases h)
  | .error _, .ok _ => .isFalse (by intro h; cases h)
  | .error e, .error f =>
    if h : e = f then .isTrue (by rw [h])
    else .isFalse (by intro hc; cases hc; exact h rfl)

namespace ChunkedProcessor

/-- A cell of a column as seen by `batch[column].dropna().astype(float)`:
a numeric (or numerically parseable) value, a missing value (NaN/None), or a
non-numeric value that `astype(float)` cannot parse. -/
inductive Value where
  | num (q : ℚ)
  | null
  | nonNumeric (s : String)
deriving DecidableEq

/-- `Series.dropna()`: removes missing values, keeps everything else. -/
def dropna (col : List Value) : List Value :=
  col.filter fun v => match v with
    | .null => false
    | _ => true

/-- `Series.astype(float)`: converts each remaining cell to a float, raising
`ValueError` on an unparsable cell.  (`astype(float)` maps NaN to NaN, but in
the source it is only ever applied after `dropna`, so the `null` branch is
unreachable; it is marked as an error here.) -/
def astype (col : List Value) : Except String (List ℚ) :=
  match col with
  | [] => .ok []
  | .num q :: rest => (astype rest).map fun qs => q :: qs
  | .null :: _ => .error "astype: NaN after dropna (unreachable)"
  | .nonNumeric _ :: _ => .error "could not convert string to float"

/-- The mutable `stats` dictionary of `compute_statistics_chunked`
(lines 217-224): running count, sum, sum of squares, min, max and the
bounded values sample used for percentiles. -/
structure StatsState where
  count : ℕ
  sum : ℚ
  sum_sq : ℚ
  min : WithTop ℚ
  max : WithBot ℚ
  values_sample : List ℚ
deriving DecidableEq

/-- Initial `stats` dictionary: count 0, sums 0, `min = float('inf')`,
`max = float('-inf')`, empty sample. -/
def initStats : StatsState :=
  { count := 0, sum := 0, sum_sq := 0, min := ⊤, max := ⊥, values_sample := [] }

/-- One iteration of the batch loop of `compute_statistics_chunked`
(lines 226-240), applied to the already parsed column `col_data`:
accumulate count/sum/sum_sq/min/max, then extend the sample by
`min(1000, len(col_data))` sampled values while the sample holds fewer than
10000 values. -/
def statsUpdate (st : StatsState) (col : List ℚ) : StatsState :=
  { count := st.count + col.length
    sum := st.sum + col.sum
    sum_sq := st.sum_sq + (col.map fun q => q ^ 2).sum
    min := col.foldl (fun m q => Min.min m (q : WithTop ℚ)) st.min
    max := col.foldl (fun m q => Max.max m (q : WithBot ℚ)) st.max
    values_sample :=
      if st.values_sample.length < 10000 then
        st.values_sample ++ col.take (Min.min 1000 col.length)
      else st.values_sample }

/-- The batch loop of `compute_statistics_chunked`: for each batch, parse the
target column (`dropna().astype(float)`, which raises on a non-numeric cell)
and fold it into the running state. -/
def statsLoop (st : StatsState) : List (List Value) → Except String StatsState
  | [] => .ok st
  | b :: bs =>
    match astype (dropna b) with
    | .error e => .error e
    | .ok col => statsLoop (statsUpdate st col) bs

/-- `compute_statistics_chunked` up to finalization: run the batch loop from
the initial state. -/
def compute_statistics_chunked (batches : List (List Value)) :
    Except String StatsState :=
  statsLoop initStats batches

/-- Finalization (line 243): `mean = sum / count if count > 0 else 0`. -/
def statsMean (st : StatsState) : ℚ :=
  if st.count > 0 then st.sum / st.count else 0

/-- Finalization (line 244):
`variance = sum_sq / count - mean² if count > 0 else 0`.  The reported
`stddev` is `variance ** 0.5`, i.e. `Real.sqrt` of this value. -/
def statsVariance (st : StatsState) : ℚ :=
  if st.count > 0 then st.sum_sq / st.count - statsMean st ^ 2 else 0

/-- `pd.Series(values).median()`: middle element of the sorted values, or the
average of the two middle elements for an even count. -/
def medianOf (values : List ℚ) : ℚ :=
  let s := values.mergeSort (fun a b => a ≤ b)
  if values.length % 2 = 1 then s.getD (values.length / 2) 0
  else (s.getD (values.length / 2 - 1) 0 + s.getD (values.length / 2) 0) / 2

/-- Finalization (line 253): the reported median is the median of the values
sample, or `None` when the sample is empty. -/
def statsMedian (st : StatsState) : Option ℚ :=
  if st.values_sample.isEmpty then none else some (medianOf st.values_sample)

/-! ## Grouped aggregation

`aggregate_rows_chunked` (lines 134-194) with a single aggregated column:
a row is a `(group key, value)` pair, the aggregation function is the
pandas function name from `agg_spec`, and the running `all_groups`
dictionary is an insertion-ordered association list. -/

variable {K : Type} [DecidableEq K]

/-- Lookup in the `all_groups` dictionary (`group_key not in all_groups`). -/
def lookupKey (k : K) : List (K × ℚ) → Option ℚ
  | [] => none
  | (k', v) :: rest => if k' = k then some v else lookupKey k rest

/-- `all_groups[group_key][col_name] += group_data[col_name]` (line 184):
add `d` to the value stored under key `k`. -/
def addToKey (k : K) (d : ℚ) : List (K × ℚ) → List (K × ℚ)
  | [] => []
  | (k', v) :: rest =>
    if k' = k then (k', v + d) :: rest else (k', v) :: addToKey k d rest

/-- The aggregation-function names `batch.groupby(...).agg(...)` accepts in
this pipeline: `sum`, `count`, `mean`, `min`, `max`; pandas raises on any
other name. -/
def isSupportedAgg (func : String) : Bool :=
  func = "sum" || func = "count" || func = "mean" || func = "min" ||
    func = "max"

/-- The pandas aggregation applied to one group's (nonempty) value list.
The empty-list fallback of the `min`/`max` branches is never exercised: the
value lists come from rows of the batch, so they are nonempty. -/
def applyAgg (func : String) (vals : List ℚ) : ℚ :=
  if func = "sum" then vals.sum
  else if func = "count" then vals.length
  else if func = "mean" then vals.sum / vals.length
  else if func = "min" then
    match vals with | [] => 0 | v :: rest => rest.foldl Min.min v
  else
    match vals with | [] => 0 | v :: rest => rest.foldl Max.max v

/-- Values of one group inside a batch: all row values whose key equals `k`,
in row order. -/
def groupVals (k : K) (batch : List (K × ℚ)) : List ℚ :=
  batch.filterMap fun r => if r.1 = k then some r.2 else none

/-- Distinct group keys of a batch in first-occurrence order (`seen` is the
accumulator of keys already emitted). -/
def uniqueKeysAux : List K → List K → List K
  | _, [] => []
  | seen, k :: ks =>
    if k ∈ seen then uniqueKeysAux seen ks
    else k :: uniqueKeysAux (k :: seen) ks

/-- Distinct group keys of a batch in first-occurrence order. -/
def uniqueKeys (ks : List K) : List K := uniqueKeysAux [] ks

/-- `batch.groupby(group_by).agg(agg_spec)` (line 173): raises on an
unsupported aggregation-function name, otherwise produces one partial
accumulator per distinct group key of the batch.  (pandas sorts group keys;
this embedding keeps first-occurrence order, and all properties below are
stated via `lookupKey`, which is order-independent.) -/
def batchGroupAgg (func : String) (batch : List (K × ℚ)) :
    Except String (List (K × ℚ)) :=
  if isSupportedAgg func then
    .ok ((uniqueKeys (batch.map Prod.fst)).map fun k =>
      (k, applyAgg func (groupVals k batch)))
  else .error "unsupported aggregation function"

/-- The merge loop of lines 176-185: each `(group_key, partial)` of the batch
result is folded into `all_groups`; a new key is inserted with its partial
value, an existing key is incremented for `sum`/`count`, and for every other
function the running value is kept unchanged (the source comment reads
"mean, min, max would need more sophisticated merging"). -/
def mergeGroups (func : String) : List (K × ℚ) → List (K × ℚ) → List (K × ℚ)
  | st, [] => st
  | st, (k, v) :: gs =>
    let st' :=
      match lookupKey k st with
      | none => st ++ [(k, v)]
      | some _ => if func = "sum" ∨ func = "count" then addToKey k v st else st
    mergeGroups func st' gs

/-- The batch loop of `aggregate_rows_chunked` (lines 169-185), instrumented
with the number of batches consumed from the source when the loop stops: a
batch is read, grouped (which raises on an unknown function name), and merged
into the running state. -/
def aggLoop (func : String) :
    List (K × ℚ) → ℕ → List (List (K × ℚ)) →
      Except String (List (K × ℚ)) × ℕ
  | st, n, [] => (.ok st, n)
  | st, n, b :: bs =>
    match batchGroupAgg func b with
    | .error e => (.error e, n + 1)
    | .ok g => aggLoop func (mergeGroups func st g) (n + 1) bs

/-- `aggregate_rows_chunked`: run the batch loop from an empty `all_groups`
and return the final per-group results. -/
def aggregate_rows_chunked (func : String) (batches : List (List (K × ℚ))) :
    Except String (List (K × ℚ)) :=
  (aggLoop func [] 0 batches).1

/-- Number of batches the source had produced when `aggregate_rows_chunked`
finished or raised. -/
def aggBatchesRead (func : String) (batches : List (List (K × ℚ))) : ℕ :=
  (aggLoop func [] 0 batches).2

/-- `ColumnProcessor.aggregate_rows` (`column_processor.py` lines 82-103):
load the whole table and aggregate it in one pass with
`df.groupby(group_by).agg(agg_func)`. -/
def aggregate_rows (func : String) (rows : List (K × ℚ)) :
    Except String (List (K × ℚ)) :=
  batchGroupAgg func rows

/-! ## Filtering with spill-to-disk

`filter_rows_chunked` (lines 66-132) together with `_write_results`
(lines 310-327).  The spill file is modelled as `Option (List α)`
(`none` = the output path does not exist yet); the memory estimate
`sum(b.memory_usage(deep=True).sum() for b in result_batches)` is modelled as
the total row count of the accumulated batches (deep memory usage is
proportional to row count for fixed-width rows), with the ceiling
`max_memory_mb` in the same unit. -/

variable {α : Type}

/-- `_write_results` (lines 310-327): concatenate the given batches and write
them to the file; with `append=True` and an existing file, the existing
contents are read back and prepended, otherwise the file is overwritten. -/
def writeResults (file : Option (List α)) (batches : List (List α))
    (append : Bool) : Option (List α) :=
  let combined := batches.flatten
  match append, file with
  | true, some existing => some (existing ++ combined)
  | _, _ => some combined

/-- In-flight state of `filter_rows_chunked`: the in-memory `result_batches`
accumulation and the current contents of the output file. -/
structure FilterState (α : Type) where
  result_batches : List (List α)
  file : Option (List α)

/-- Memory estimate for the accumulated batches (total row count). -/
def memoryOf (batches : List (List α)) : ℕ := (batches.map List.length).sum

/-- The batch loop of `filter_rows_chunked` (lines 97-117): filter each batch
by the predicate, keep nonempty filtered batches in `result_batches`, and —
when an output path was given and the memory estimate exceeds the ceiling —
spill the accumulation to the output file with `append = batch_idx > 0` and
clear it. -/
def filterLoop (p : α → Bool) (hasOutput : Bool) (maxMem : ℕ) :
    FilterState α → ℕ → List (List α) → FilterState α
  | st, _, [] => st
  | st, idx, b :: bs =>
    let fb := b.filter p
    let st' :=
      if fb.length > 0 then
        let rb := st.result_batches ++ [fb]
        if hasOutput ∧ memoryOf rb > maxMem then
          { result_batches := [],
            file := writeResults st.file rb (decide (idx > 0)) }
        else { st with result_batches := rb }
      else st
    filterLoop p hasOutput maxMem st' (idx + 1) bs

/-- `filter_rows_chunked` (lines 66-132): run the batch loop; if any batches
remain in memory, concatenate them into the returned result and — when an
output path was given — write that result to the file with `append=False`
(line 123, overwriting whatever was spilled there); otherwise return an empty
result.  The pair is (returned rows, final output-file contents). -/
def filter_rows_chunked (p : α → Bool) (hasOutput : Bool) (maxMem : ℕ)
    (batches : List (List α)) : List α × Option (List α) :=
  let st := filterLoop p hasOutput maxMem ⟨[], none⟩ 0 batches
  if st.result_batches.isEmpty then ([], st.file)
  else
    let result := st.result_batches.flatten
    (result, if hasOutput then writeResults st.file [result] false else st.file)

/-! ## Batch sources

`HetznerStorage.read_parquet_batch` and `read_tbl_batch`
(`remote_storage.py`), the readers behind `RemoteChunkedProcessor`. -/

/-- `read_parquet_batch` (lines 140-190): a parquet file is a list of row
groups.  The code computes `batches = ceil(total_rows / batch_size)` but then
reads `row_groups=[batch_idx]` — one whole row group per index — so it yields
entire row groups and raises an out-of-range error once `batch_idx` passes the
actual number of row groups.  Returns the batches yielded before the
generator finished or raised, paired with the error if one was raised. -/
def read_parquet_batch (rowGroups : List (List α)) (batch_size : ℕ) :
    List (List α) × Option String :=
  let total := (rowGroups.map List.length).sum
  let nBatches := (total + batch_size - 1) / batch_size
  let rec go : List ℕ → List (List α) × Option String
    | [] => ([], none)
    | i :: is =>
      if h : i < rowGroups.length then
        let (rest, err) := go is
        (rowGroups.get ⟨i, h⟩ :: rest, err)
      else ([], some "row group index out of range")
  go (List.range nBatches)

/-- `read_tbl_batch` (lines 192-244): stream lines, accumulate them into
`batch_rows`, and yield a batch as soon as `len(batch_rows) >= batch_size`;
any remaining rows are yielded as a final short batch. -/
def read_tbl_batch (batch_size : ℕ) (lines : List α) : List (List α) :=
  let rec go : List α → List α → List (List α)
    | acc, [] => if acc.isEmpty then [] else [acc]
    | acc, l :: ls =>
      let acc' := acc ++ [l]
      if acc'.length ≥ batch_size then acc' :: go [] ls else go acc' ls
  go [] lines

/-! ## Specification-side helpers

Definitions used only to state and prove properties of the embedding
above (never part of the embedded code). -/

/-- Whether a cell carries a parseable numeric value. -/
def isNum : Value → Bool
  | .num _ => true
  | _ => false

/-- Pointwise addition of optional partial aggregates: absent on both sides
stays absent, present on one side is kept, present on both is added. -/
def optAdd : Option ℚ → Option ℚ → Option ℚ
  | none, b => b
  | some x, none => some x
  | some x, some y => some (x + y)

/-- The single-pass per-group aggregate of `func` over `rows`, as a lookup:
`none` for a group key absent from the rows. -/
def expectedAgg (func : String) (k : K) (rows : List (K × ℚ)) : Option ℚ :=
  if k ∈ rows.map Prod.fst then some (applyAgg func (groupVals k rows))
  else none

/-- Reservoir-sample size of a statistics run, `0` for a raised run; used to
observe the sample-size bound on concrete inputs. -/
def sampleLenOf : Except String StatsState → ℕ
  | .ok st => st.values_sample.length
  | .error _ => 0

/-- The sample-size recurrence realized by `statsUpdate` (one step per batch,
`L` the parsed batch length), used to evaluate sample sizes on large concrete
inputs without computing the accumulated sums. -/
def sampleLenRun (lens : List ℕ) : ℕ :=
  lens.foldl (fun len L => if len < 10000 then len + Min.min 1000 L else len) 0

/-! ## Claim theorems: concrete evaluations -/

/-- C1: the claim is that `mean` is tracked as a (sum, count) pair and the
finalized mean equals total_sum / total_count for every partition into
batches.  The code does neither: the merge loop only adds `sum`/`count`
partials and keeps the first batch's partial mean for every other function,
so for group `g` with values 1, 2 in batch 1 and 4 in batch 2 the reported
mean is the first batch's 3/2, not total_sum / total_count = 7/3. -/
theorem mean_merge_keeps_first_batch :
    aggregate_rows_chunked "mean" [[("g", (1 : ℚ)), ("g", 2)], [("g", 4)]] =
      .ok [("g", 3 / 2)] ∧ (3 / 2 : ℚ) ≠ 7 / 3 := by
  constructor
  · simp +decide [aggregate_rows_chunked, aggLoop, batchGroupAgg,
      isSupportedAgg, applyAgg, groupVals, uniqueKeys, uniqueKeysAux,
      mergeGroups, lookupKey, addToKey]
    norm_num
  · norm_num

/-- C2: the claim is that the rows returned by `filter_rows_chunked` do not
depend on the memory ceiling.  With an output path, three one-row batches
that all match, and ceiling 1 (in row units), the spill after batch 1 is
later overwritten by the final `append=False` write and the in-memory
return holds only the rows accumulated since the last spill: the run
returns `[3]` with file `[3]`, while the same input under ceiling 1000
returns `[1, 2, 3]` with file `[1, 2, 3]`. -/
theorem filter_result_depends_on_memory_ceiling :
    filter_rows_chunked (fun _ : ℚ => true) true 1 [[1], [2], [3]] =
        ([3], some [3]) ∧
      filter_rows_chunked (fun _ : ℚ => true) true 1000 [[1], [2], [3]] =
        ([1, 2, 3], some [1, 2, 3]) := by
  constructor <;> decide

/-- C4: the claim is that `min`/`max` partials are merged as
min/max(running, incoming).  The merge loop keeps the running value for
every function other than `sum`/`count`, so with group `g` seeing 5 in
batch 1 and 3 in batch 2 the reported `min` is 5, not min(5, 3) = 3, and
symmetrically for `max`. -/
theorem min_max_merge_keeps_first_batch :
    aggregate_rows_chunked "min" [[("g", (5 : ℚ))], [("g", 3)]] =
        .ok [("g", 5)] ∧
      aggregate_rows_chunked "max" [[("g", (3 : ℚ))], [("g", 5)]] =
        .ok [("g", 3)] ∧
      (5 : ℚ) ≠ Min.min 5 3 ∧ (3 : ℚ) ≠ Max.max 3 5 := by
  refine ⟨?_, ?_, by norm_num [min_def], by norm_num [max_def]⟩ <;>
    simp +decide [aggregate_rows_chunked, aggLoop, batchGroupAgg,
      isSupportedAgg, applyAgg, groupVals, uniqueKeys, uniqueKeysAux,
      mergeGroups, lookupKey, addToKey]

/-- C5 counterexample: the claim is that an unsupported aggregation-function
name raises before any batch is read.  There is no eager validation: the
name is only rejected when the first batch is grouped, after that batch has
been consumed from the source, so on a one-batch input the error surfaces
with 1 batch read, not 0. -/
theorem unsupported_agg_read_count :
    aggregate_rows_chunked "frobnicate" [[("g", (1 : ℚ))]] =
        .error "unsupported aggregation function" ∧
      aggBatchesRead "frobnicate" [[("g", (1 : ℚ))]] = 1 ∧ (1 : ℕ) ≠ 0 := by
  refine ⟨?_, ?_, by decide⟩ <;>
    simp +decide [aggregate_rows_chunked, aggBatchesRead, aggLoop,
      batchGroupAgg, isSupportedAgg]

/-- C3 counterexample: the claim is that non-numeric values are coerced to a
missing marker and excluded, with `count` the number of parseable rows.  The
code runs `dropna().astype(float)`, and `astype(float)` raises on the
unparsable cell, so a column holding one number and one non-numeric string
raises instead of reporting count = 1. -/
theorem stats_nonNumeric_raises :
    compute_statistics_chunked [[Value.num 1, Value.nonNumeric "abc"]] =
      .error "could not convert string to float" := by
  simp +decide [compute_statistics_chunked, statsLoop, dropna, astype,
    Except.map]

/-- C8: the claim bundles the concrete scenario `quantity = [10,40] ++
[25,60]`: the filter `quantity > 30` does yield exactly {40, 60} and
`sum(quantity)` over one group does yield 135, but `mean(quantity)` yields
the first batch's partial mean 25, not the claimed 33.75 = 135/4, because
partial means are not merged. -/
theorem concrete_scenario_mean_wrong :
    filter_rows_chunked (fun q : ℚ => decide (30 < q)) false 2048
        [[10, 40], [25, 60]] = ([40, 60], none) ∧
      aggregate_rows_chunked "sum"
        [[("g", (10 : ℚ)), ("g", 40)], [("g", 25), ("g", 60)]] =
        .ok [("g", 135)] ∧
      aggregate_rows_chunked "mean"
        [[("g", (10 : ℚ)), ("g", 40)], [("g", 25), ("g", 60)]] =
        .ok [("g", 25)] ∧
      (25 : ℚ) ≠ 135 / 4 := by
  refine ⟨by decide, ?_, ?_, by norm_num⟩ <;>
    (simp +decide [aggregate_rows_chunked, aggLoop, batchGroupAgg,
      isSupportedAgg, applyAgg, groupVals, uniqueKeys, uniqueKeysAux,
      mergeGroups, lookupKey, addToKey]; norm_num)

/-- C9: the claim is that every produced batch has at most `batch_size`
rows.  `read_parquet_batch` computes the number of batches as
ceil(total_rows / batch_size) but then reads one whole row group per batch
index, so a file holding a single 3-row row group read with
`batch_size = 2` yields one batch of 3 rows (and then raises an
out-of-range row-group error), violating the ≤ 2 bound. -/
theorem parquet_batch_exceeds_batch_size :
    ((read_parquet_batch [[(7 : ℚ), 8, 9]] 2).1.map List.length = [3]) ∧
      ¬ (3 ≤ 2) := by
  constructor
  · decide
  · decide

/-! ## Lookup and merge lemmas -/

theorem mem_uniqueKeysAux (k : K) (ks : List K) :
    ∀ seen, k ∈ uniqueKeysAux seen ks ↔ k ∈ ks ∧ k ∉ seen := by
  induction ks with
  | nil => intro seen; simp [uniqueKeysAux]
  | cons a ks ih =>
    intro seen
    by_cases ha : a ∈ seen
    · rw [uniqueKeysAux, if_pos ha, ih]
      constructor
      · rintro ⟨hk, hs⟩
        exact ⟨List.mem_cons_of_mem _ hk, hs⟩
      · rintro ⟨hk, hs⟩
        rcases List.mem_cons.mp hk with rfl | hk
        · exact absurd ha hs
        · exact ⟨hk, hs⟩
    · rw [uniqueKeysAux, if_neg ha]
      constructor
      · intro h
        rcases List.mem_cons.mp h with rfl | h
        · exact ⟨List.mem_cons_self _ _, ha⟩
        · obtain ⟨hk, hs⟩ := (ih _).mp h
          exact ⟨List.mem_cons_of_mem _ hk,
            fun hmem => hs (List.mem_cons_of_mem _ hmem)⟩
      · rintro ⟨hk, hs⟩
        rcases List.mem_cons.mp hk with rfl | hk
        · exact List.mem_cons_self _ _
        · by_cases hka : k = a
          · subst hka; exact List.mem_cons_self _ _
          · refine List.mem_cons_of_mem _ ((ih _).mpr ⟨hk, ?_⟩)
            intro hmem
            rcases List.mem_cons.mp hmem with h1 | h1
            · exact hka h1
            · exact hs h1

theorem mem_uniqueKeys (k : K) (ks : List K) :
    k ∈ uniqueKeys ks ↔ k ∈ ks := by
  simp [uniqueKeys, mem_uniqueKeysAux]

theorem nodup_uniqueKeysAux (ks : List K) :
    ∀ seen, (uniqueKeysAux seen ks).Nodup := by
  induction ks with
  | nil => intro seen; simp [uniqueKeysAux]
  | cons a ks ih =>
    intro seen
    by_cases ha : a ∈ seen
    · rw [uniqueKeysAux, if_pos ha]
      exact ih seen
    · rw [uniqueKeysAux, if_neg ha]
      refine List.nodup_cons.mpr ⟨?_, ih (a :: seen)⟩
      intro hmem
      exact ((mem_uniqueKeysAux a ks (a :: seen)).mp hmem).2
        (List.mem_cons_self a seen)

theorem nodup_uniqueKeys (ks : List K) : (uniqueKeys ks).Nodup :=
  nodup_uniqueKeysAux ks []

theorem lookupKey_eq_none_of_not_mem {k : K} {l : List (K × ℚ)}
    (h : k ∉ l.map Prod.fst) : lookupKey k l = none := by
  induction l with
  | nil => rfl
  | cons r rest ih =>
    obtain ⟨k', v⟩ := r
    simp only [List.map_cons, List.mem_cons] at h
    push_neg at h
    rw [lookupKey, if_neg (fun hk => h.1 hk.symm), ih h.2]

theorem lookupKey_map_apply (k : K) (keys : List K) (f : K → ℚ) :
    lookupKey k (keys.map fun x => (x, f x)) =
      if k ∈ keys then some (f k) else none := by
  induction keys with
  | nil => simp [lookupKey]
  | cons a keys ih =>
    rw [List.map_cons, lookupKey]
    by_cases hak : a = k
    · subst hak; simp
    · rw [if_neg hak, ih]
      by_cases hk : k ∈ keys
      · simp [hk]
      · rw [if_neg hk, if_neg]
        simp only [List.mem_cons]
        rintro (rfl | h)
        · exact hak rfl
        · exact hk h

theorem lookupKey_append (k : K) (l₁ l₂ : List (K × ℚ)) :
    lookupKey k (l₁ ++ l₂) =
      match lookupKey k l₁ with
      | some x => some x
      | none => lookupKey k l₂ := by
  induction l₁ with
  | nil => simp [lookupKey]
  | cons r rest ih =>
    obtain ⟨k', v⟩ := r
    rw [List.cons_append, lookupKey, lookupKey]
    by_cases hk : k' = k
    · simp [hk]
    · simp only [if_neg hk, ih]

theorem lookupKey_addToKey_self {k : K} {st : List (K × ℚ)} {x : ℚ} (v : ℚ)
    (h : lookupKey k st = some x) :
    lookupKey k (addToKey k v st) = some (x + v) := by
  induction st with
  | nil => simp [lookupKey] at h
  | cons r rest ih =>
    obtain ⟨k', w⟩ := r
    by_cases hk : k' = k
    · subst hk
      rw [lookupKey, if_pos rfl] at h
      injection h with h
      subst h
      rw [addToKey, if_pos rfl, lookupKey, if_pos rfl]
    · rw [lookupKey, if_neg hk] at h
      rw [addToKey, if_neg hk, lookupKey, if_neg hk]
      exact ih h

theorem lookupKey_addToKey_of_ne {k' k : K} (hne : k' ≠ k) (v : ℚ)
    (st : List (K × ℚ)) :
    lookupKey k (addToKey k' v st) = lookupKey k st := by
  induction st with
  | nil => rfl
  | cons r rest ih =>
    obtain ⟨a, w⟩ := r
    rw [addToKey]
    by_cases ha : a = k'
    · subst ha
      rw [if_pos rfl, lookupKey, if_neg hne, lookupKey, if_neg hne]
    · rw [if_neg ha]
      by_cases hak : a = k
      · simp [lookupKey, hak]
      · rw [lookupKey, if_neg hak, lookupKey, if_neg hak]
        exact ih

theorem optAdd_none_right (a : Option ℚ) : optAdd a none = a := by
  cases a <;> rfl

theorem optAdd_assoc (a b c : Option ℚ) :
    optAdd (optAdd a b) c = optAdd a (optAdd b c) := by
  cases a <;> cases b <;> cases c <;> simp [optAdd, add_assoc]

theorem groupVals_eq_nil_of_not_mem {k : K} {l : List (K × ℚ)}
    (h : k ∉ l.map Prod.fst) : groupVals k l = [] := by
  induction l with
  | nil => rfl
  | cons r rest ih =>
    obtain ⟨k', v⟩ := r
    simp only [List.map_cons, List.mem_cons] at h
    push_neg at h
    simp only [groupVals, List.filterMap_cons] at *
    rw [if_neg (fun hk => h.1 hk.symm)]
    exact ih h.2

theorem groupVals_append (k : K) (l₁ l₂ : List (K × ℚ)) :
    groupVals k (l₁ ++ l₂) = groupVals k l₁ ++ groupVals k l₂ := by
  simp [groupVals, List.filterMap_append]

theorem applyAgg_append {func : String}
    (hfunc : func = "sum" ∨ func = "count") (l₁ l₂ : List ℚ) :
    applyAgg func (l₁ ++ l₂) = applyAgg func l₁ + applyAgg func l₂ := by
  rcases hfunc with rfl | rfl
  · simp [applyAgg]
  · simp +decide only [applyAgg]
    push_cast [List.length_append]
    ring

theorem expectedAgg_append {func : String}
    (hfunc : func = "sum" ∨ func = "count") (k : K) (l₁ l₂ : List (K × ℚ)) :
    expectedAgg func k (l₁ ++ l₂) =
      optAdd (expectedAgg func k l₁) (expectedAgg func k l₂) := by
  simp only [expectedAgg, List.map_append, List.mem_append, groupVals_append]
  by_cases h₁ : k ∈ l₁.map Prod.fst <;> by_cases h₂ : k ∈ l₂.map Prod.fst
  · simp [h₁, h₂, optAdd, applyAgg_append hfunc]
  · simp [h₁, h₂, optAdd, groupVals_eq_nil_of_not_mem h₂]
  · simp [h₁, h₂, optAdd, groupVals_eq_nil_of_not_mem h₁]
  · simp [h₁, h₂, optAdd]

theorem lookupKey_mergeGroups {func : String}
    (hfunc : func = "sum" ∨ func = "count") (k : K) :
    ∀ (g st : List (K × ℚ)), (g.map Prod.fst).Nodup →
      lookupKey k (mergeGroups func st g) =
        optAdd (lookupKey k st) (lookupKey k g) := by
  intro g
  induction g with
  | nil =>
    intro st _
    rw [mergeGroups, lookupKey, optAdd_none_right]
  | cons r gs ih =>
    intro st hg
    obtain ⟨k', v⟩ := r
    simp only [List.map_cons, List.nodup_cons] at hg
    obtain ⟨hk', hgs⟩ := hg
    rw [mergeGroups]
    by_cases hk : k' = k
    · subst hk
      have hgsk : lookupKey k' gs = none :=
        lookupKey_eq_none_of_not_mem hk'
      cases hst : lookupKey k' st with
      | none =>
        show lookupKey k' (mergeGroups func (st ++ [(k', v)]) gs) =
          optAdd none (lookupKey k' ((k', v) :: gs))
        rw [ih _ hgs, hgsk, optAdd_none_right, lookupKey_append, hst,
          lookupKey, if_pos rfl, lookupKey, if_pos rfl]
        rfl
      | some x =>
        show lookupKey k' (mergeGroups func
            (if func = "sum" ∨ func = "count" then addToKey k' v st else st)
            gs) = optAdd (some x) (lookupKey k' ((k', v) :: gs))
        rw [if_pos hfunc, ih _ hgs, hgsk, optAdd_none_right,
          lookupKey_addToKey_self v hst, lookupKey, if_pos rfl]
        rfl
    · have hcons : lookupKey k ((k', v) :: gs) = lookupKey k gs := by
        rw [lookupKey, if_neg hk]
      cases hst : lookupKey k' st with
      | none =>
        show lookupKey k (mergeGroups func (st ++ [(k', v)]) gs) =
          optAdd (lookupKey k st) (lookupKey k ((k', v) :: gs))
        rw [ih _ hgs, hcons, lookupKey_append]
        cases hself : lookupKey k st with
        | none =>
          show optAdd (lookupKey k [(k', v)]) (lookupKey k gs) =
            optAdd none (lookupKey k gs)
          rw [lookupKey, if_neg hk, lookupKey]
        | some y => rfl
      | some x =>
        show lookupKey k (mergeGroups func
            (if func = "sum" ∨ func = "count" then addToKey k' v st else st)
            gs) = optAdd (lookupKey k st) (lookupKey k ((k', v) :: gs))
        rw [if_pos hfunc, ih _ hgs, hcons,
          lookupKey_addToKey_of_ne hk v st]

omit [DecidableEq K] in
theorem map_fst_map_pair (keys : List K) (f : K → ℚ) :
    (keys.map fun x => (x, f x)).map Prod.fst = keys := by
  induction keys with
  | nil => rfl
  | cons a ks ih => simp [ih]

theorem lookupKey_batchResult (func : String) (k : K)
    (b : List (K × ℚ)) :
    lookupKey k ((uniqueKeys (b.map Prod.fst)).map fun x =>
        (x, applyAgg func (groupVals x b))) = expectedAgg func k b := by
  rw [lookupKey_map_apply, expectedAgg]
  by_cases h : k ∈ b.map Prod.fst
  · rw [if_pos ((mem_uniqueKeys k _).mpr h), if_pos h]
  · rw [if_neg (fun hm => h ((mem_uniqueKeys k _).mp hm)), if_neg h]

theorem aggLoop_sum_count {func : String}
    (hfunc : func = "sum" ∨ func = "count")
    (hsupp : isSupportedAgg func = true) (k : K) :
    ∀ (bs : List (List (K × ℚ))) (st : List (K × ℚ)) (n : ℕ),
      ∃ fin, aggLoop func st n bs = (.ok fin, n + bs.length) ∧
        lookupKey k fin =
          optAdd (lookupKey k st) (expectedAgg func k bs.flatten) := by
  intro bs
  induction bs with
  | nil =>
    intro st n
    refine ⟨st, by simp [aggLoop], ?_⟩
    have : expectedAgg func k ([] : List (List (K × ℚ))).flatten = none := by
      simp [expectedAgg]
    rw [this, optAdd_none_right]
  | cons b bs ih =>
    intro st n
    obtain ⟨fin, heq, hlook⟩ := ih (mergeGroups func st
      ((uniqueKeys (b.map Prod.fst)).map fun x =>
        (x, applyAgg func (groupVals x b)))) (n + 1)
    refine ⟨fin, ?_, ?_⟩
    · rw [aggLoop, batchGroupAgg, if_pos hsupp]
      show aggLoop func (mergeGroups func st
          ((uniqueKeys (b.map Prod.fst)).map fun x =>
            (x, applyAgg func (groupVals x b)))) (n + 1) bs =
        (Except.ok fin, n + (b :: bs).length)
      rw [heq]
      congr 1
      simp only [List.length_cons]
      omega
    · rw [hlook,
        lookupKey_mergeGroups hfunc k _ st
          (by rw [map_fst_map_pair]; exact nodup_uniqueKeys _),
        lookupKey_batchResult, List.flatten_cons,
        expectedAgg_append hfunc, optAdd_assoc]

/-! ## Claim theorems: general properties -/

/-- C6: for every dataset and every partition of its rows into batches, the
per-group `sum` and `count` aggregates of the streaming
`aggregate_rows_chunked` agree with the single-pass in-memory
`ColumnProcessor.aggregate_rows` over the concatenation of the batches, as
per-group lookups. -/
theorem streaming_sum_count_eq_single_pass
    (batches : List (List (String × ℚ))) (k : String) :
    (aggregate_rows_chunked "sum" batches).map (lookupKey k) =
        (aggregate_rows "sum" batches.flatten).map (lookupKey k) ∧
      (aggregate_rows_chunked "count" batches).map (lookupKey k) =
        (aggregate_rows "count" batches.flatten).map (lookupKey k) := by
  constructor
  · obtain ⟨fin, heq, hlook⟩ :=
      aggLoop_sum_count (Or.inl rfl) (by decide) k batches [] 0
    rw [aggregate_rows_chunked, heq, aggregate_rows, batchGroupAgg,
      if_pos (by decide)]
    simp only [Except.map, hlook, lookupKey, optAdd, lookupKey_batchResult]
  · obtain ⟨fin, heq, hlook⟩ :=
      aggLoop_sum_count (Or.inr rfl) (by decide) k batches [] 0
    rw [aggregate_rows_chunked, heq, aggregate_rows, batchGroupAgg,
      if_pos (by decide)]
    simp only [Except.map, hlook, lookupKey, optAdd, lookupKey_batchResult]

/-! ## Statistics lemmas -/

theorem dropna_nil : dropna [] = [] := rfl

theorem dropna_cons_num (q : ℚ) (rest : List Value) :
    dropna (Value.num q :: rest) = Value.num q :: dropna rest := rfl

theorem dropna_cons_null (rest : List Value) :
    dropna (Value.null :: rest) = dropna rest := rfl

theorem dropna_cons_nonNumeric (s : String) (rest : List Value) :
    dropna (Value.nonNumeric s :: rest) =
      Value.nonNumeric s :: dropna rest := rfl

theorem astype_dropna_ok_length {b : List Value} :
    ∀ {col : List ℚ}, astype (dropna b) = .ok col →
      col.length = (b.filter fun v => isNum v).length := by
  induction b with
  | nil =>
    intro col h
    rw [dropna_nil, astype] at h
    injection h with h
    rw [← h]
    rfl
  | cons v rest ih =>
    intro col h
    cases v with
    | num q =>
      rw [dropna_cons_num, astype] at h
      cases hrest : astype (dropna rest) with
      | error e => rw [hrest] at h; cases h
      | ok col' =>
        rw [hrest] at h
        injection h with h
        rw [← h,
          show (Value.num q :: rest).filter (fun v => isNum v) =
            Value.num q :: rest.filter (fun v => isNum v) from rfl,
          List.length_cons, List.length_cons, ih hrest]
    | null =>
      rw [dropna_cons_null] at h
      rw [show (Value.null :: rest).filter (fun v => isNum v) =
        rest.filter (fun v => isNum v) from rfl]
      exact ih h
    | nonNumeric s =>
      rw [dropna_cons_nonNumeric, astype] at h
      cases h

theorem statsLoop_count (bs : List (List Value)) :
    ∀ st acc, statsLoop st bs = .ok acc →
      acc.count = st.count + (bs.flatten.filter fun v => isNum v).length := by
  induction bs with
  | nil =>
    intro st acc h
    rw [statsLoop] at h
    injection h with h
    rw [h]
    simp
  | cons b bs ih =>
    intro st acc h
    rw [statsLoop] at h
    cases hb : astype (dropna b) with
    | error e => rw [hb] at h; cases h
    | ok col =>
      rw [hb] at h
      have hc := ih _ _ h
      have hup : (statsUpdate st col).count = st.count + col.length := rfl
      rw [hc, hup, astype_dropna_ok_length hb, List.flatten_cons,
        List.filter_append, List.length_append]
      omega

theorem statsUpdate_sample_length (st : StatsState) (col : List ℚ) :
    (statsUpdate st col).values_sample.length =
      if st.values_sample.length < 10000 then
        st.values_sample.length + Min.min 1000 col.length
      else st.values_sample.length := by
  have hproj : (statsUpdate st col).values_sample =
      if st.values_sample.length < 10000 then
        st.values_sample ++ col.take (Min.min 1000 col.length)
      else st.values_sample := rfl
  rw [hproj]
  by_cases hlt : st.values_sample.length < 10000
  · rw [if_pos hlt, if_pos hlt, List.length_append, List.length_take,
      min_assoc, min_self]
  · rw [if_neg hlt, if_neg hlt]

theorem statsLoop_sample_le (bs : List (List Value)) :
    ∀ st acc, statsLoop st bs = .ok acc →
      st.values_sample.length ≤ 10999 →
      acc.values_sample.length ≤ 10999 := by
  induction bs with
  | nil =>
    intro st acc h hle
    rw [statsLoop] at h
    injection h with h
    rw [h] at hle
    exact hle
  | cons b bs ih =>
    intro st acc h hle
    rw [statsLoop] at h
    cases hb : astype (dropna b) with
    | error e => rw [hb] at h; cases h
    | ok col =>
      rw [hb] at h
      refine ih _ _ h ?_
      rw [statsUpdate_sample_length]
      have hmin : Min.min 1000 col.length ≤ 1000 := min_le_left _ _
      split <;> omega

theorem statsUpdate_nil (st : StatsState) : statsUpdate st [] = st := by
  simp [statsUpdate]

theorem statsLoop_of_count_eq (bs : List (List Value)) :
    ∀ st acc, statsLoop st bs = .ok acc → acc.count = st.count → acc = st := by
  induction bs with
  | nil =>
    intro st acc h _
    rw [statsLoop] at h
    injection h with h
    exact h.symm
  | cons b bs ih =>
    intro st acc h hc
    rw [statsLoop] at h
    cases hb : astype (dropna b) with
    | error e => rw [hb] at h; cases h
    | ok col =>
      rw [hb] at h
      have h1 := statsLoop_count bs _ _ h
      have hup : (statsUpdate st col).count = st.count + col.length := rfl
      have hcol : col = [] := List.length_eq_zero.mp (by omega)
      subst hcol
      have h2 : statsLoop (statsUpdate st []) bs = .ok acc := h
      rw [statsUpdate_nil] at h2
      exact ih _ _ h2 hc

theorem astype_dropna_allNum {b : List Value}
    (h : ∀ v ∈ b, isNum v = true) :
    ∃ col, astype (dropna b) = .ok col ∧ col.length = b.length := by
  induction b with
  | nil => exact ⟨[], rfl, rfl⟩
  | cons v rest ih =>
    have hv := h v (List.mem_cons_self _ _)
    cases v with
    | num q =>
      obtain ⟨col, hcol, hlen⟩ := ih fun v hv => h v (List.mem_cons_of_mem _ hv)
      refine ⟨q :: col, ?_, by rw [List.length_cons, List.length_cons, hlen]⟩
      rw [dropna_cons_num, astype, hcol]
      rfl
    | null => exact absurd hv (by simp [isNum])
    | nonNumeric s => exact absurd hv (by simp [isNum])

theorem statsLoop_allNum (bs : List (List Value)) :
    ∀ st, (∀ b ∈ bs, ∀ v ∈ b, isNum v = true) →
      ∃ acc, statsLoop st bs = .ok acc ∧
        acc.values_sample.length =
          (bs.map List.length).foldl
            (fun len L => if len < 10000 then len + Min.min 1000 L else len)
            st.values_sample.length := by
  induction bs with
  | nil => intro st _; exact ⟨st, rfl, rfl⟩
  | cons b bs ih =>
    intro st hall
    obtain ⟨col, hcol, hlen⟩ :=
      astype_dropna_allNum (hall b (List.mem_cons_self _ _))
    obtain ⟨acc, hacc, hslen⟩ := ih (statsUpdate st col)
      fun b' hb' v hv => hall b' (List.mem_cons_of_mem _ hb') v hv
    refine ⟨acc, ?_, ?_⟩
    · rw [statsLoop, hcol]
      exact hacc
    · rw [hslen, List.map_cons, List.foldl_cons, statsUpdate_sample_length,
        hlen]

/-! ## Claim theorems: statistics and error handling -/

/-- C3 (amended): whenever `compute_statistics_chunked` completes without
raising, its `count` equals the number of cells of the target column holding
a parseable numeric value, over every partition of the rows into batches;
missing values are excluded from all accumulators.  (The original claim's
coercion of unparsable values does not happen — see the counterexample:
an unparsable cell raises instead.) -/
theorem stats_count_eq_numeric_rows (batches : List (List Value))
    (acc : StatsState) (h : compute_statistics_chunked batches = .ok acc) :
    acc.count = (batches.flatten.filter fun v => isNum v).length := by
  have := statsLoop_count batches initStats acc h
  simpa [initStats] using this

/-- Witness for C3's amended theorem at a concrete input: a column
`[3, NaN]` in one batch yields count 1 = number of parseable cells. -/
theorem stats_count_eq_numeric_rows_witness :
    compute_statistics_chunked [[Value.num 3, Value.null]] =
        .ok (statsUpdate initStats [3]) ∧
      (statsUpdate initStats [3]).count =
        (([[Value.num 3, Value.null]] : List (List Value)).flatten.filter
          fun v => isNum v).length := by
  have h : compute_statistics_chunked [[Value.num 3, Value.null]] =
      .ok (statsUpdate initStats [3]) := rfl
  exact ⟨h, stats_count_eq_numeric_rows _ _ h⟩

/-- C5 (amended): an unsupported aggregation-function name makes
`aggregate_rows_chunked` raise while grouping the first batch — after that
batch has been read from the source (1 batch consumed), not before any
batch is read; there is no eager validation. -/
theorem unsupported_agg_errors_on_first_batch (func : String)
    (b : List (String × ℚ)) (bs : List (List (String × ℚ)))
    (h : isSupportedAgg func = false) :
    aggregate_rows_chunked func (b :: bs) =
        .error "unsupported aggregation function" ∧
      aggBatchesRead func (b :: bs) = 1 := by
  have hb : batchGroupAgg func b =
      .error "unsupported aggregation function" := by
    rw [batchGroupAgg, if_neg (by simp [h])]
  constructor
  · rw [aggregate_rows_chunked, aggLoop, hb]
  · rw [aggBatchesRead, aggLoop, hb]

/-- Witness for C5's amended theorem at a concrete input. -/
theorem unsupported_agg_errors_on_first_batch_witness :
    isSupportedAgg "frobnicate" = false ∧
      (aggregate_rows_chunked "frobnicate" [[("g", (1 : ℚ))]] =
          .error "unsupported aggregation function" ∧
        aggBatchesRead "frobnicate" [[("g", (1 : ℚ))]] = 1) :=
  ⟨by decide,
    unsupported_agg_errors_on_first_batch "frobnicate" [("g", 1)] []
      (by decide)⟩

/-- C7 (amended): the reservoir sample is appended to only while it holds
fewer than 10000 values, with at most 1000 values added per batch, so its
size never exceeds 10999 — but it can exceed 10000 (see the
counterexample), so the claimed 10,000 bound is off by up to 999. -/
theorem reservoir_sample_le_10999 (batches : List (List Value))
    (acc : StatsState) (h : compute_statistics_chunked batches = .ok acc) :
    acc.values_sample.length ≤ 10999 :=
  statsLoop_sample_le batches initStats acc h (by decide)

/-- Witness for C7's amended theorem at a concrete input. -/
theorem reservoir_sample_le_10999_witness :
    compute_statistics_chunked [[Value.num 3]] =
        .ok (statsUpdate initStats [3]) ∧
      (statsUpdate initStats [3]).values_sample.length ≤ 10999 := by
  have h : compute_statistics_chunked [[Value.num 3]] =
      .ok (statsUpdate initStats [3]) := rfl
  exact ⟨h, reservoir_sample_le_10999 _ _ h⟩

/-- C7 counterexample: the claim bounds the reservoir by 10,000 at all
times.  Nine 1000-row batches, one 999-row batch and one 2-row batch (all
numeric) leave the sample at 9999 < 10000 before the last batch, which then
appends 2 more values: the final sample holds 10001 > 10000 values. -/
theorem reservoir_sample_exceeds_10000 :
    sampleLenOf (compute_statistics_chunked
        (List.replicate 9 (List.replicate 1000 (Value.num 0)) ++
          [List.replicate 999 (Value.num 0),
            List.replicate 2 (Value.num 0)])) = 10001 ∧
      ¬ (10001 ≤ 10000) := by
  constructor
  · have hall : ∀ b ∈ List.replicate 9 (List.replicate 1000 (Value.num 0)) ++
        [List.replicate 999 (Value.num 0), List.replicate 2 (Value.num 0)],
        ∀ v ∈ b, isNum v = true := by
      intro b hb v hv
      have hb' : b = List.replicate 1000 (Value.num 0) ∨
          b = List.replicate 999 (Value.num 0) ∨
          b = List.replicate 2 (Value.num 0) := by
        rcases List.mem_append.mp hb with h | h
        · exact Or.inl (List.eq_of_mem_replicate h)
        · rcases List.mem_cons.mp h with h1 | h1
          · exact Or.inr (Or.inl h1)
          · rcases List.mem_cons.mp h1 with h2 | h2
            · exact Or.inr (Or.inr h2)
            · cases h2
      have hv0 : v = Value.num 0 := by
        rcases hb' with rfl | rfl | rfl <;> exact List.eq_of_mem_replicate hv
      rw [hv0]
      rfl
    obtain ⟨acc, hacc, hlen⟩ := statsLoop_allNum _ initStats hall
    rw [compute_statistics_chunked, hacc]
    show acc.values_sample.length = 10001
    rw [hlen]
    simp only [List.map_append, List.map_replicate, List.length_replicate,
      List.map_cons, List.map_nil, initStats, List.length_nil]
    decide
  · decide

/-- C10: when a statistics run completes with `count = 0` (no parseable
values seen), finalization does not divide by zero: the guarded branches
give mean 0 and variance 0 (hence stddev = sqrt 0 = 0), and the result
reports min = +inf, max = -inf and median = None. -/
theorem stats_zero_count_guarded (batches : List (List Value))
    (acc : StatsState) (h : compute_statistics_chunked batches = .ok acc)
    (hc : acc.count = 0) :
    statsMean acc = 0 ∧ Real.sqrt ((statsVariance acc : ℚ) : ℝ) = 0 ∧
      acc.min = ⊤ ∧ acc.max = ⊥ ∧ statsMedian acc = none := by
  have hacc : acc = initStats :=
    statsLoop_of_count_eq batches initStats acc h (by rw [hc]; rfl)
  subst hacc
  refine ⟨by simp [statsMean, initStats], ?_, rfl, rfl, ?_⟩
  · rw [show statsVariance initStats = 0 by simp [statsVariance, initStats]]
    simp
  · simp [statsMedian, initStats]

/-- Witness for C10 at a concrete input: a single batch whose only cell is
missing gives a completed run with count 0. -/
theorem stats_zero_count_guarded_witness :
    compute_statistics_chunked [[Value.null]] = .ok initStats ∧
      (statsMean initStats = 0 ∧
        Real.sqrt ((statsVariance initStats : ℚ) : ℝ) = 0 ∧
        initStats.min = ⊤ ∧ initStats.max = ⊥ ∧
        statsMedian initStats = none) := by
  have h : compute_statistics_chunked [[Value.null]] = .ok initStats := by
    rw [compute_statistics_chunked, statsLoop,
      show astype (dropna [Value.null]) = .ok [] from rfl]
    show statsLoop (statsUpdate initStats []) [] = .ok initStats
    rw [statsUpdate_nil, statsLoop]
  exact ⟨h, stats_zero_count_guarded [[Value.null]] initStats h rfl⟩

end ChunkedProcessor
